import Mathlib

/-!
Verification of the `pgtricks` repository's sorting core.

The central artifact is the iterative field-aware comparator `linecomp` from
`src/pgtricks/pg_dump_splitsort.py`, embedded here as a fuel-driven state
machine over `List Char` (one state per phase of the Python `while` loop).
Also embedded: the older recursive comparator from `src/pg_dump_splitsort.py`,
the `memory_size` parser, and the `MergeSort` orchestrator from
`src/pgtricks/mergesort.py`.
-/

namespace Pgtricks

/-- A record (one text line) is a sequence of characters, as in the Python source
where lines are `str` values indexed by position. -/
abbrev Line := List Char

/-- Membership in the Python literal `'0123456789'` used by `linecomp`. -/
def isDig (c : Char) : Bool := '0' ≤ c && c ≤ '9'

/-- The zero-skipping loop `while p < len(l) and l[p] == "0": p += 1` of
`linecomp`, acting on the suffix of the line starting at the cursor. -/
def dropZeros : Line → Line
  | [] => []
  | c :: rest => if c = '0' then dropZeros rest else c :: rest

/-- The digit-scanning loop `for d in range(p, len(l)): if l[d] not in '0123456789': break`
of `linecomp`, acting on the suffix starting at cursor `p`; returns `d - p`.
Note the Python `for` loop leaves `d` at `len(l) - 1` (not `len(l)`) when the
whole remaining suffix is digits, and at `p` when the range is empty; both
give span `0` for a suffix of length at most one. -/
def digitSpan : Line → Nat
  | [] => 0
  | c :: rest =>
    match rest with
    | [] => 0
    | _ :: _ => if isDig c then digitSpan rest + 1 else 0

/-- Python string three-way comparison (`<`, `>` on `str`): lexicographic by
code point. -/
def cmpStr : Line → Line → Int
  | [], [] => 0
  | [], _ :: _ => -1
  | _ :: _, [] => 1
  | a :: s, b :: t => if a < b then -1 else if b < a then 1 else cmpStr s t

/-- Control state of the `while True` loop of the iterative `linecomp`
(`src/pgtricks/pg_dump_splitsort.py`): `top` is the loop head with the two
suffixes from cursors `p1`, `p2`; `body` is the point after sign handling and
zero skipping, carrying `l1_larger` and the zero-stripped suffixes; `frac` is
the inner fractional-part loop with cursors just after the decimal points. -/
inductive LcPhase : Type
  | top : Line → Line → LcPhase
  | body : Int → Line → Line → LcPhase
  | frac : Int → Line → Line → LcPhase

/-- Fuel needed from a given phase: every loop transition strictly decreases
this measure, so running with this much fuel never hits the fuel bound. -/
def phM : LcPhase → Nat
  | .top s1 s2 => 2 * (s1.length + s2.length) + 2
  | .body _ u1 u2 => 2 * (u1.length + u2.length) + 1
  | .frac _ t1 t2 => 2 * (t1.length + t2.length) + 1

/-- One fuel-indexed run of the iterative `linecomp` loop from a given phase.
Each branch mirrors a `return` or `continue` of the Python source; the fuel
bound (returning `0`) is unreachable from `top l1 l2` with `phM` fuel. -/
def lcRun : Nat → LcPhase → Int
  | 0, _ => 0
  | n + 1, .top s1 s2 =>
    match s1, s2 with
    | [], [] => 0
    | [], _ :: _ => -1
    | _ :: _, [] => 1
    | c1 :: r1, c2 :: r2 =>
      if c1 = '-' then
        if c2 = '-' then lcRun n (.body (-1) (dropZeros r1) (dropZeros r2))
        else -1
      else if c2 = '-' then 1
      else lcRun n (.body 1 (dropZeros (c1 :: r1)) (dropZeros (c2 :: r2)))
  | n + 1, .body sign u1 u2 =>
    if digitSpan u2 < digitSpan u1 then sign
    else if digitSpan u1 < digitSpan u2 then -sign
    else if cmpStr (u1.take (digitSpan u1)) (u2.take (digitSpan u2)) = 1 then sign
    else if cmpStr (u1.take (digitSpan u1)) (u2.take (digitSpan u2)) = -1 then -sign
    else
      match u1.drop (digitSpan u1), u2.drop (digitSpan u2) with
      | [], [] => 0
      | [], _ :: _ => -sign
      | _ :: _, [] => sign
      | a :: v1, b :: v2 =>
        if b < a then sign
        else if a < b then -sign
        else if a = '.' then lcRun n (.frac sign v1 v2)
        else lcRun n (.top v1 v2)
  | n + 1, .frac sign t1 t2 =>
    match t1, t2 with
    | [], [] => 0
    | [], _ :: _ => -1
    | _ :: _, [] => 1
    | a :: v1, b :: v2 =>
      if a = '\t' then
        if b = '\t' then lcRun n (.top v1 v2)
        else -sign
      else if b = '\t' then sign
      else if b < a then sign
      else if a < b then -sign
      else lcRun n (.frac sign v1 v2)

/-- The iterative comparator `linecomp` of `src/pgtricks/pg_dump_splitsort.py`
on character lists. -/
def linecomp (l1 l2 : Line) : Int := lcRun (phM (.top l1 l2)) (.top l1 l2)

/-- `linecomp` on Lean strings. -/
def linecompS (a b : String) : Int := linecomp a.data b.data

/-- Control state of the guarded `linecomp` loop, which carries the previous
cursor pair (`prev_p1`, `prev_p2`).  Cursor positions are recorded as the
lengths of the remaining suffixes (position `p` in a line `l` leaves a suffix
of length `l.length - p`, so two position pairs are equal iff the recorded
length pairs are).  `body` and `frac` carry the cursor lengths recorded at the
loop head, to become `prev` on the next iteration. -/
inductive GPhase : Type
  | top : Option (Nat × Nat) → Line → Line → GPhase
  | body : Nat × Nat → Int → Line → Line → GPhase
  | frac : Nat × Nat → Int → Line → Line → GPhase

/-- Fuel measure for the guarded run, matching `phM`. -/
def phMG : GPhase → Nat
  | .top _ s1 s2 => 2 * (s1.length + s2.length) + 2
  | .body _ _ u1 u2 => 2 * (u1.length + u2.length) + 1
  | .frac _ _ t1 t2 => 2 * (t1.length + t2.length) + 1

/-- The iterative `linecomp` with its infinite-loop guard: at the loop head,
`if p1 == prev_p1 and p2 == prev_p2: raise RuntimeError("Infinite loop in linecomp")`.
Apart from the guard this mirrors `lcRun` branch for branch. -/
def lcRunG : Nat → GPhase → Except String Int
  | 0, _ => .ok 0
  | n + 1, .top prev s1 s2 =>
    if prev = some (s1.length, s2.length) then .error "Infinite loop in linecomp"
    else
      match s1, s2 with
      | [], [] => .ok 0
      | [], _ :: _ => .ok (-1)
      | _ :: _, [] => .ok 1
      | c1 :: r1, c2 :: r2 =>
        if c1 = '-' then
          if c2 = '-' then
            lcRunG n (.body (r1.length + 1, r2.length + 1) (-1) (dropZeros r1) (dropZeros r2))
          else .ok (-1)
        else if c2 = '-' then .ok 1
        else lcRunG n (.body (r1.length + 1, r2.length + 1) 1
              (dropZeros (c1 :: r1)) (dropZeros (c2 :: r2)))
  | n + 1, .body e sign u1 u2 =>
    if digitSpan u2 < digitSpan u1 then .ok sign
    else if digitSpan u1 < digitSpan u2 then .ok (-sign)
    else if cmpStr (u1.take (digitSpan u1)) (u2.take (digitSpan u2)) = 1 then .ok sign
    else if cmpStr (u1.take (digitSpan u1)) (u2.take (digitSpan u2)) = -1 then .ok (-sign)
    else
      match u1.drop (digitSpan u1), u2.drop (digitSpan u2) with
      | [], [] => .ok 0
      | [], _ :: _ => .ok (-sign)
      | _ :: _, [] => .ok sign
      | a :: v1, b :: v2 =>
        if b < a then .ok sign
        else if a < b then .ok (-sign)
        else if a = '.' then lcRunG n (.frac e sign v1 v2)
        else lcRunG n (.top (some e) v1 v2)
  | n + 1, .frac e sign t1 t2 =>
    match t1, t2 with
    | [], [] => .ok 0
    | [], _ :: _ => .ok (-1)
    | _ :: _, [] => .ok 1
    | a :: v1, b :: v2 =>
      if a = '\t' then
        if b = '\t' then lcRunG n (.top (some e) v1 v2)
        else .ok (-sign)
      else if b = '\t' then .ok sign
      else if b < a then .ok sign
      else if a < b then .ok (-sign)
      else lcRunG n (.frac e sign v1 v2)

/-- `linecomp` with its `RuntimeError` guard reported in the `Except` error
channel; the initial `prev_p1 = prev_p2 = None` is the `none` previous pair. -/
def linecompChecked (l1 l2 : Line) : Except String Int :=
  lcRunG (phM (.top l1 l2)) (.top none l1 l2)

/-- Split a Python string at the first tab: `l.split('\t', 1)` gives the head
field and, when a tab is present, the remaining tail. -/
def splitTab : Line → Line × Option Line
  | [] => ([], none)
  | c :: r =>
    if c = '\t' then ([], some r)
    else
      let p := splitTab r
      (c :: p.1, p.2)

/-- Underscore placement check of Python numeric literals: every `_` must sit
between two digits. -/
def uVal : Option Char → Line → Bool
  | _, [] => true
  | prev, '_' :: rest =>
    (match prev with | some p => isDig p | none => false)
      && (match rest with | r :: _ => isDig r | [] => false)
      && uVal (some '_') rest
  | _, c :: rest => uVal (some c) rest

/-- An exact decimal value `num / 10 ^ exp`; used instead of `ℚ` so that the
kernel can evaluate comparisons (rational normalisation does not reduce). -/
structure Dec : Type where
  num : Int
  exp : Nat

/-- Numeric value of a digit string as an integer. -/
def digitsVal (s : Line) : Int :=
  s.foldl (fun acc c => acc * 10 + ((c.toNat - '0'.toNat : Nat) : Int)) 0

/-- Parse the unsigned part of a decimal literal: integer digits, optional `.`
and fraction digits, at least one digit in total, nothing left over. -/
def parseBody (sgn : Int) (t : Line) : Option Dec :=
  match t.drop (t.takeWhile isDig).length with
  | [] =>
    if (t.takeWhile isDig).isEmpty then none
    else some ⟨sgn * digitsVal (t.takeWhile isDig), 0⟩
  | c :: fr =>
    if c = '.' then
      if (fr.drop (fr.takeWhile isDig).length).isEmpty then
        if (t.takeWhile isDig).isEmpty && (fr.takeWhile isDig).isEmpty then none
        else
          some ⟨sgn * digitsVal (t.takeWhile isDig ++ fr.takeWhile isDig),
            (fr.takeWhile isDig).length⟩
      else none
    else none

/-- Parse an underscore-free decimal literal: optional sign, then `parseBody`. -/
def parsePlain (s : Line) : Option Dec :=
  match s with
  | [] => parseBody 1 []
  | c :: r =>
    if c = '-' then parseBody (-1) r
    else if c = '+' then parseBody 1 r
    else parseBody 1 (c :: r)

/-- Model of the Python builtin `float(s)` used by `try_float` and
`memory_size`, on decimal literals: sign, digits with single underscores
between digits, optional fractional part; the result is the exact decimal
value.  Simplifications relative to CPython: no exponent notation, no
`inf`/`nan` words, no surrounding whitespace, and no rounding to IEEE-754
doubles.  Every claim settled below consults this parser only on inputs where
those simplifications make no observable difference (short exactly
representable literals, or digit-free strings on which both reject). -/
def pyFloat (s : Line) : Option Dec :=
  if uVal none s then parsePlain (s.filter (fun c => c ≠ '_')) else none

/-- Three-way comparison of two exact decimal values by cross-multiplying. -/
def cmpDec (a b : Dec) : Int :=
  let x := a.num * (10 : Int) ^ b.exp
  let y := b.num * (10 : Int) ^ a.exp
  if x < y then -1 else if y < x then 1 else 0

/-- `try_float` of `src/pg_dump_splitsort.py`: return the string unchanged when
it is empty or starts outside `'0123456789.-'`, otherwise the parsed number,
falling back to the string when `float` raises `ValueError`. -/
def try_float (s : Line) : Sum Dec Line :=
  match s with
  | [] => .inr s
  | c :: _ =>
    if isDig c || c = '.' || c = '-' then
      match pyFloat s with
      | some q => .inl q
      | none => .inr s
    else .inr s

/-- Python 2 `cmp` restricted to the values `try_float` produces: two numbers
compare numerically, two strings lexicographically, and any number sorts
strictly before any string (CPython 2 orders numeric values before all
non-numeric types). -/
def pyCmp : Sum Dec Line → Sum Dec Line → Int
  | .inl a, .inl b => cmpDec a b
  | .inl _, .inr _ => -1
  | .inr _, .inl _ => 1
  | .inr a, .inr b => cmpStr a b

/-- Fuel-indexed run of the recursive `linecomp` of `src/pg_dump_splitsort.py`:
split both lines at the first tab, compare the heads via `try_float` and `cmp`,
and recurse into the tails when the heads tie and both tails exist.  The fuel
bound is unreachable with `l1.length + 1` fuel since each recursion drops at
least the head's tab. -/
def oldLcF : Nat → Line → Line → Int
  | 0, _, _ => 0
  | n + 1, l1, l2 =>
    let p1 := splitTab l1
    let p2 := splitTab l2
    let result := pyCmp (try_float p1.1) (try_float p2.1)
    if result = 0 then
      match p1.2, p2.2 with
      | some t1, some t2 => oldLcF n t1 t2
      | _, _ => 0
    else result

/-- The recursive comparator `linecomp` of `src/pg_dump_splitsort.py`. -/
def oldLinecomp (l1 l2 : Line) : Int := oldLcF (l1.length + 1) l1 l2

/-- The ASCII characters Python treats as whitespace, both in `str.strip()` /
`str.isspace()` and in the regex class `\s`: the six classic whitespace
characters and the separator controls `\x1c`-`\x1f`.  Python additionally
treats many non-ASCII code points (U+0085, U+00A0, ...) as whitespace; this
predicate is exact on ASCII characters only, and the theorems consulting it
quantify over ASCII inputs. -/
def isPySpace (c : Char) : Bool :=
  c = ' ' || c = '\t' || c = '\n' || c = '\r' || c = '\x0b' || c = '\x0c'
    || c = '\x1c' || c = '\x1d' || c = '\x1e' || c = '\x1f'

/-- `s.strip()`: drop whitespace from both ends.  Exact on ASCII strings;
Python's `strip()` also removes non-ASCII Unicode whitespace such as U+00A0,
which this model does not. -/
def pyStrip (s : Line) : Line :=
  ((s.dropWhile isPySpace).reverse.dropWhile isPySpace).reverse

/-- `memory_size` of `src/pgtricks/pg_dump_splitsort.py`: lowercase and strip
the input, then apply `re.match(r"([\d._]+)\s*([kmg]?)b?", ...)` — an anchored,
non-exhaustive match: group 1 is the maximal leading run of digits, dots and
underscores (failure to find one raises `ValueError`), then optional
whitespace, then an optional unit letter `k`/`m`/`g` scaling by the
corresponding power of 1024 (any other trailing text is ignored, not
rejected), and the result is `int(float(group1) * unit)`.  `float` is modelled
by `pyFloat` (exact decimals) and `int` by integer division by the power of
ten, which agrees with CPython truncation because group 1 can never parse
negative.  The character classes are modelled at ASCII precision: Python's
`\d`, `\s`, `str.lower()`, `str.strip()` and `float` are Unicode-aware (a
size string containing a non-ASCII digit such as U+0663 parses, and non-ASCII
whitespace such as U+00A0 is stripped), so this model is faithful exactly on
ASCII size strings, and the universal statements proved about it carry an
ASCII hypothesis. -/
def memory_size (size : Line) : Except String Int :=
  let t := pyStrip (size.map Char.toLower)
  let g1 := t.takeWhile (fun c => isDig c || c = '.' || c = '_')
  if g1.isEmpty then .error "Invalid memory size"
  else
    let r1 := (t.drop g1.length).dropWhile isPySpace
    let unit : Int :=
      match r1 with
      | 'k' :: _ => 1024
      | 'm' :: _ => 1048576
      | 'g' :: _ => 1073741824
      | _ => 1
    match pyFloat g1 with
    | some q => .ok ((q.num * unit) / (10 : Int) ^ q.exp)
    | none => .error "could not convert string to float"

/-- `memory_size` on Lean strings. -/
def memory_sizeS (s : String) : Except String Int := memory_size s.data

/-- The in-memory sorting order used by `MergeSort`: a line precedes another
when the comparator does not place it strictly after. -/
def lineLe (a b : Line) : Prop := linecomp a b ≤ 0

/-- Insert a line into an already-ordered list, before the first element it
does not sort strictly after. -/
def insertLine (x : Line) : List Line → List Line
  | [] => [x]
  | y :: ys => if linecomp x y ≤ 0 then x :: y :: ys else y :: insertLine x ys

/-- Modelled from the spec: `sort_lines` of the missing `pgtricks._tsv_sort`
module (§4.2 "sort its current contents in-memory using the Comparator"),
realised as insertion sort by `linecomp`. -/
def sort_lines (lines : List Line) : List Line := lines.foldr insertLine []

/-- Fuel-indexed binary merge of two lists by `linecomp`; the fuel bound
(which simply concatenates) is unreachable with `l1.length + l2.length`
fuel. -/
def mergeF : Nat → List Line → List Line → List Line
  | 0, l1, l2 => l1 ++ l2
  | _ + 1, [], l2 => l2
  | _ + 1, l1, [] => l1
  | n + 1, a :: l1, b :: l2 =>
    if linecomp a b ≤ 0 then a :: mergeF n l1 (b :: l2)
    else b :: mergeF n (a :: l1) l2

/-- Binary merge with sufficient fuel. -/
def merge2 (l1 l2 : List Line) : List Line := mergeF (l1.length + l2.length) l1 l2

/-- Modelled from the spec: the k-way merge of `heapq.merge` keyed by the
comparator (§4.4), realised as iterated binary merge over the partitions. -/
def kMergeAll : List (List Line) → List Line
  | [] => []
  | l :: ls => merge2 l (kMergeAll ls)

/-- The state of a `MergeSort` object (`src/pgtricks/mergesort.py`):
`partitions` holds the contents of the spilled temporary files (each written
as an already-sorted run), `buffer` the resident lines, `iterating` the
suffix of merged output still to be yielded once draining has started, and
`memoryCounter` the running `sys.getsizeof` estimate. -/
structure MergeSort : Type where
  partitions : List (List Line)
  buffer : List Line
  iterating : Option (List Line)
  memoryCounter : Int

section MergeSortOps

/- `szList` models `sys.getsizeof` of the buffer list as a function of its
length (the buffer is only ever grown by `append` from a fresh empty list, so
its CPython capacity — hence its size — is a function of its length), and
`szStr` models `sys.getsizeof` of a line string as a function of its value.
Both are arbitrary, covering every platform; `maxMemory` is the configured
ceiling. -/
variable (szList : Nat → Int) (szStr : Line → Int) (maxMemory : Int)

/-- `MergeSort._flush`: when the buffer is nonempty, append a new partition
holding its sorted contents; clear the buffer and reset the memory counter to
the empty-list overhead. -/
def flushState (s : MergeSort) : MergeSort :=
  { partitions :=
      if s.buffer.isEmpty then s.partitions
      else s.partitions ++ [sort_lines s.buffer]
    buffer := []
    iterating := s.iterating
    memoryCounter := szList 0 }

/-- The state built by `MergeSort.__init__`: empty buffer and partitions, no
iteration started, counter at the empty-list overhead (the constructor's
initial `_flush` call is a no-op on an empty buffer). -/
def initState : MergeSort :=
  { partitions := [], buffer := [], iterating := none, memoryCounter := szList 0 }

/-- `MergeSort.append`: refuse when iteration has started (a generator or list
iterator is always truthy in Python, so `if self._iterating` tests exactly
`isSome`); otherwise push the line, update the memory estimate by the size
delta of the buffer plus the size of the line, and flush when the estimate
reaches the ceiling. -/
def appendLine (s : MergeSort) (line : Line) : Except String MergeSort :=
  if s.iterating.isSome then .error "Cannot append lines after starting to sort"
  else
    let buf := s.buffer ++ [line]
    let mc := s.memoryCounter - szList s.buffer.length + szList buf.length + szStr line
    let s' : MergeSort :=
      { s with buffer := buf, memoryCounter := mc }
    .ok (if maxMemory ≤ mc then flushState szList s' else s')

/-- The successful branch of `appendLine` (total, used to run a whole build). -/
def appendB (s : MergeSort) (line : Line) : MergeSort :=
  let buf := s.buffer ++ [line]
  let mc := s.memoryCounter - szList s.buffer.length + szList buf.length + szStr line
  let s' : MergeSort :=
    { s with buffer := buf, memoryCounter := mc }
  if maxMemory ≤ mc then flushState szList s' else s'

/-- Append a whole list of lines, in the `Except` channel. -/
def buildE (lines : List Line) : Except String MergeSort :=
  lines.foldlM (appendLine szList szStr maxMemory) (initState szList)

/-- Append a whole list of lines through the successful branch. -/
def build (lines : List Line) : MergeSort :=
  lines.foldl (appendB szList szStr maxMemory) (initState szList)

/-- `MergeSort.__next__`: on the first call, either sort the resident buffer
in place (no partition was ever created) or flush the remainder and k-way
merge all partitions; afterwards pop lines one at a time, `none` signalling
`StopIteration`. -/
def nextLine (s : MergeSort) : Option Line × MergeSort :=
  let s1 :=
    match s.iterating with
    | some _ => s
    | none =>
      if s.partitions.isEmpty then { s with iterating := some (sort_lines s.buffer) }
      else
        let sf := flushState szList s
        { sf with iterating := some (kMergeAll sf.partitions) }
  match s1.iterating with
  | some (l :: rest) => (some l, { s1 with iterating := some rest })
  | some [] => (none, s1)
  | none => (none, s1)

/-- Iterate `__next__` for its state effect. -/
def nextSteps (n : Nat) (s : MergeSort) : MergeSort :=
  (fun t => (nextLine szList t).2)^[n] s

/-- The state set up by the first `__next__` call on a not-yet-iterating
object, before the first line is popped. -/
def startState (s : MergeSort) : MergeSort :=
  if s.partitions.isEmpty then { s with iterating := some (sort_lines s.buffer) }
  else
    let sf := flushState szList s
    { sf with iterating := some (kMergeAll sf.partitions) }

/-- `s` yields exactly the lines `out`, in order, when `__next__` is called
until exhaustion. -/
inductive Drains : MergeSort → List Line → Prop
  | nil (s : MergeSort) : (nextLine szList s).1 = none → Drains s []
  | cons (s : MergeSort) (l : Line) (s' : MergeSort) (ls : List Line) :
      nextLine szList s = (some l, s') → Drains s' ls → Drains s (l :: ls)

end MergeSortOps

/-- Every line held by the state: spilled partitions plus the resident
buffer. -/
def allLines (s : MergeSort) : List Line := s.partitions.flatten ++ s.buffer

/-- The full sequence a fresh (not yet iterating) state will yield:
the sorted buffer when nothing was ever spilled, otherwise the k-way merge of
all partitions after the final flush. -/
def outLines (s : MergeSort) : List Line :=
  if s.partitions.isEmpty then sort_lines s.buffer
  else
    kMergeAll
      (if s.buffer.isEmpty then s.partitions
       else s.partitions ++ [sort_lines s.buffer])

/-- Buffer-list size model used in the concrete scenarios: the list length. -/
def lenL (n : Nat) : Int := n

/-- String size model used in the concrete scenarios: the string length. -/
def lenS (l : Line) : Int := l.length

/-- The twelve single-digit lines of the end-to-end scenario. -/
def twelve : List Line :=
  [['3'], ['1'], ['4'], ['1'], ['5'], ['9'], ['2'], ['6'], ['5'], ['3'], ['8'], ['4']]

/-- The expected drained output of the end-to-end scenario. -/
def twelveSorted : List Line :=
  [['1'], ['1'], ['2'], ['3'], ['3'], ['4'], ['4'], ['5'], ['5'], ['6'], ['8'], ['9']]

/-- Every spilled partition is an ordered run. -/
def partsChain (s : MergeSort) : Prop := ∀ p ∈ s.partitions, List.Chain' lineLe p

/-- A character that is neither a digit nor `'-'` nor a tab. -/
def plainChar (c : Char) : Prop := isDig c = false ∧ c ≠ '-' ∧ c ≠ '\t'

/-- A line all of whose characters are plain. -/
def plainLine (l : Line) : Prop := ∀ c ∈ l, plainChar c

example : linecompS "0.42" "0.042" = 1 := by decide
example : linecompS "4.2" "42.0" = -1 := by decide
example : linecompS "-.42" ".42" = -1 := by decide
example : linecompS "42" "42.0" = -1 := by decide
example : linecompS "" "" = 0 := by decide
example : linecompS "a" "b" = -1 := by decide
example : linecompS "0" "1" = -1 := by decide
example : linecompS "1" "0" = 1 := by decide
example : linecompS "0" "-1" = 1 := by decide
example : linecompS "-1" "0" = -1 := by decide
example : linecompS "0" "0" = 0 := by decide
example : linecompS "-1" "-1" = 0 := by decide
example : linecompS ".42" "-.42" = 1 := by decide
example : linecompS "foo\ta" "bar\tb" = 1 := by decide
example : linecompS "foo\tb" "foo\ta" = 1 := by decide
example : linecompS "foo\t0.42" "foo\t4.2" = -1 := by decide
example : linecompS "foo" "0" = 1 := by decide
example : linecompS "0" "foo" = -1 := by decide
example : linecompS "42" "" = 1 := by decide
example : linecompS "" "42" = -1 := by decide
example : linecompS "\\N" "-5" = 1 := by decide
example : linecompS "\\N" "7" = 1 := by decide
example : linecompS "\\N" "42" = -1 := by decide
example : linecompS "\\N" "" = 1 := by decide
example : linecompS "a" "53" = -1 := by decide
example : linecompChecked "42".data "42.0".data = .ok (-1) := rfl
example : linecompChecked "foo\t0.42".data "foo\t4.2".data = .ok (-1) := rfl
example : oldLinecomp "42".data "42.0".data = 0 := by decide
example : oldLinecomp "0.42".data "0.042".data = 1 := by decide
example : oldLinecomp "foo\t0.42".data "foo\t4.2".data = -1 := by decide
example : oldLinecomp "\"32.0\"".data "\"4.20\"".data = -1 := by decide
example : linecompS "\"32.0\"" "\"4.20\"" = 1 := by decide
example : oldLinecomp "-1.5".data "-1.52".data = 1 := by decide
example : linecompS "-1.5" "-1.52" = -1 := by decide
example : memory_sizeS "1k" = .ok 1024 := rfl
example : memory_sizeS "1.5M" = .ok 1572864 := rfl
example : memory_sizeS "20GB" = .ok 21474836480 := rfl
example : memory_sizeS "20TB" = .ok 20 := rfl
example : memory_sizeS "0" = .ok 0 := rfl
example : memory_sizeS "1" = .ok 1 := rfl
example : memory_sizeS "1m" = .ok 1048576 := rfl
example : memory_sizeS "1g" = .ok 1073741824 := rfl
example : memory_sizeS "100_000K" = .ok 102400000 := rfl
example : memory_sizeS "1.5G" = .ok 1610612736 := rfl
example : memory_sizeS "1.5" = .ok 1 := rfl
example : memory_sizeS "1.5 kibibytes" = .ok 1536 := rfl
example : memory_sizeS "1.5 Megabytes" = .ok 1572864 := rfl
example : memory_sizeS "1.5 Gigs" = .ok 1610612736 := rfl
example : memory_sizeS "1.5KB" = .ok 1536 := rfl
example : memory_sizeS ".5MB" = .ok 524288 := rfl
example : memory_sizeS "foo" = .error "Invalid memory size" := rfl
example : memory_sizeS "\x1c5" = .ok 5 := rfl
example : memory_sizeS "5\x1ck" = .ok 5120 := rfl
example : outLines (build lenL lenS 4 twelve) = twelveSorted := by decide
example : outLines (build lenL lenS 1000000 twelve) = twelveSorted := by decide
example : (build lenL lenS 4 twelve).partitions.length = 6 := by decide
example : (build lenL lenS 1000000 twelve).partitions = [] := by decide
example : (build lenL lenS 4 [['2'], ['1'], ['3']]).partitions = [[['1'], ['2']]] := by decide
example : (build lenL lenS 4 [['2'], ['1'], ['3']]).buffer = [['3']] := by decide

theorem lcRun_zero (p : LcPhase) : lcRun 0 p = 0 := rfl

theorem lcRun_top_nil_nil (n : Nat) : lcRun (n + 1) (.top [] []) = 0 := rfl

theorem lcRun_top_nil_cons (n : Nat) (c : Char) (r : Line) :
    lcRun (n + 1) (.top [] (c :: r)) = -1 := rfl

theorem lcRun_top_cons_nil (n : Nat) (c : Char) (r : Line) :
    lcRun (n + 1) (.top (c :: r) []) = 1 := rfl

theorem lcRun_top_cons_cons (n : Nat) (c1 c2 : Char) (r1 r2 : Line) :
    lcRun (n + 1) (.top (c1 :: r1) (c2 :: r2)) =
      if c1 = '-' then
        if c2 = '-' then lcRun n (.body (-1) (dropZeros r1) (dropZeros r2))
        else -1
      else if c2 = '-' then 1
      else lcRun n (.body 1 (dropZeros (c1 :: r1)) (dropZeros (c2 :: r2))) := rfl

theorem lcRun_body_succ (n : Nat) (sign : Int) (u1 u2 : Line) :
    lcRun (n + 1) (.body sign u1 u2) =
      if digitSpan u2 < digitSpan u1 then sign
      else if digitSpan u1 < digitSpan u2 then -sign
      else if cmpStr (u1.take (digitSpan u1)) (u2.take (digitSpan u2)) = 1 then sign
      else if cmpStr (u1.take (digitSpan u1)) (u2.take (digitSpan u2)) = -1 then -sign
      else
        match u1.drop (digitSpan u1), u2.drop (digitSpan u2) with
        | [], [] => 0
        | [], _ :: _ => -sign
        | _ :: _, [] => sign
        | a :: v1, b :: v2 =>
          if b < a then sign
          else if a < b then -sign
          else if a = '.' then lcRun n (.frac sign v1 v2)
          else lcRun n (.top v1 v2) := rfl

theorem lcRun_frac_nil_nil (n : Nat) (sign : Int) : lcRun (n + 1) (.frac sign [] []) = 0 := rfl

theorem lcRun_frac_nil_cons (n : Nat) (sign : Int) (c : Char) (r : Line) :
    lcRun (n + 1) (.frac sign [] (c :: r)) = -1 := rfl

theorem lcRun_frac_cons_nil (n : Nat) (sign : Int) (c : Char) (r : Line) :
    lcRun (n + 1) (.frac sign (c :: r) []) = 1 := rfl

theorem lcRun_frac_cons_cons (n : Nat) (sign : Int) (a b : Char) (v1 v2 : Line) :
    lcRun (n + 1) (.frac sign (a :: v1) (b :: v2)) =
      if a = '\t' then
        if b = '\t' then lcRun n (.top v1 v2)
        else -sign
      else if b = '\t' then sign
      else if b < a then sign
      else if a < b then -sign
      else lcRun n (.frac sign v1 v2) := rfl

theorem cmpStr_antisym : ∀ a b : Line, cmpStr b a = -cmpStr a b := by
  intro a
  induction a with
  | nil => intro b; cases b <;> simp [cmpStr]
  | cons c s ih =>
    intro b
    cases b with
    | nil => simp [cmpStr]
    | cons d t =>
      simp only [cmpStr]
      rcases lt_trichotomy c d with h | h | h
      · simp [h, lt_asymm h]
      · subst h
        simp [lt_irrefl, ih]
      · simp [h, lt_asymm h]

theorem cmpStr_self : ∀ a : Line, cmpStr a a = 0 := by
  intro a
  induction a with
  | nil => simp [cmpStr]
  | cons c s ih => simp [cmpStr, lt_irrefl, ih]

theorem cmpStr_cases : ∀ a b : Line, cmpStr a b = -1 ∨ cmpStr a b = 0 ∨ cmpStr a b = 1 := by
  intro a
  induction a with
  | nil => intro b; cases b <;> simp [cmpStr]
  | cons c s ih =>
    intro b
    cases b with
    | nil => simp [cmpStr]
    | cons d t =>
      simp only [cmpStr]
      rcases lt_trichotomy c d with h | h | h
      · simp [h]
      · subst h
        simp [lt_irrefl, ih]
      · simp [h, lt_asymm h]

/-- The three phases of the comparator loop each negate their result when the
two lines are exchanged (the algorithm is symmetric in its two cursors). -/
theorem lcRun_antisym : ∀ n : Nat,
    (∀ s1 s2 : Line, lcRun n (.top s2 s1) = -lcRun n (.top s1 s2))
    ∧ (∀ (sign : Int) (u1 u2 : Line),
        lcRun n (.body sign u2 u1) = -lcRun n (.body sign u1 u2))
    ∧ (∀ (sign : Int) (t1 t2 : Line),
        lcRun n (.frac sign t2 t1) = -lcRun n (.frac sign t1 t2)) := by
  intro n
  induction n with
  | zero => exact ⟨fun _ _ => rfl, fun _ _ _ => rfl, fun _ _ _ => rfl⟩
  | succ m ih =>
    obtain ⟨ihTop, ihBody, ihFrac⟩ := ih
    refine ⟨?_, ?_, ?_⟩
    · intro s1 s2
      cases s1 with
      | nil =>
        cases s2 with
        | nil => simp [lcRun_top_nil_nil]
        | cons c2 r2 => simp [lcRun_top_nil_cons, lcRun_top_cons_nil]
      | cons c1 r1 =>
        cases s2 with
        | nil => simp [lcRun_top_nil_cons, lcRun_top_cons_nil]
        | cons c2 r2 =>
          rw [lcRun_top_cons_cons, lcRun_top_cons_cons]
          by_cases h1 : c1 = '-' <;> by_cases h2 : c2 = '-' <;>
            simp [h1, h2] <;> exact ihBody _ _ _
    · intro sign u1 u2
      rw [lcRun_body_succ, lcRun_body_succ]
      rcases Nat.lt_trichotomy (digitSpan u1) (digitSpan u2) with h | h | h
      · simp [h, Nat.lt_asymm h]
      · rw [h]
        simp only [lt_irrefl, if_false]
        have hK := cmpStr_antisym (u1.take (digitSpan u2)) (u2.take (digitSpan u2))
        rcases cmpStr_cases (u1.take (digitSpan u2)) (u2.take (digitSpan u2)) with
          hc | hc | hc <;> rw [hc] at hK <;> simp only [hc, hK]
        · norm_num
        · norm_num
          rcases hd1 : u1.drop (digitSpan u2) with _ | ⟨a, v1⟩ <;>
            rcases hd2 : u2.drop (digitSpan u2) with _ | ⟨b, v2⟩ <;> simp
          rcases lt_trichotomy a b with hab | hab | hab
          · simp [hab, lt_asymm hab]
          · subst hab
            simp only [lt_irrefl, if_false]
            by_cases hp : a = '.'
            · simp [hp]
              exact ihFrac _ _ _
            · simp [hp]
              exact ihTop _ _
          · simp [hab, lt_asymm hab]
        · norm_num
      · simp [h, Nat.lt_asymm h]
    · intro sign t1 t2
      cases t1 with
      | nil =>
        cases t2 with
        | nil => simp [lcRun_frac_nil_nil]
        | cons b v2 => simp [lcRun_frac_nil_cons, lcRun_frac_cons_nil]
      | cons a v1 =>
        cases t2 with
        | nil => simp [lcRun_frac_nil_cons, lcRun_frac_cons_nil]
        | cons b v2 =>
          rw [lcRun_frac_cons_cons, lcRun_frac_cons_cons]
          by_cases h1 : a = '\t' <;> by_cases h2 : b = '\t'
          · simp [h1, h2]
            exact ihTop _ _
          · simp [h1, h2]
          · simp [h1, h2]
          · simp only [h1, h2, if_false]
            rcases lt_trichotomy a b with hab | hab | hab
            · simp [hab, lt_asymm hab]
            · subst hab
              simp only [lt_irrefl, if_false]
              exact ihFrac _ _ _
            · simp [hab, lt_asymm hab]

/-- Each phase of the comparator returns `0` when both cursors stand on
identical suffixes. -/
theorem lcRun_self : ∀ n : Nat,
    (∀ s : Line, lcRun n (.top s s) = 0)
    ∧ (∀ (sign : Int) (u : Line), lcRun n (.body sign u u) = 0)
    ∧ (∀ (sign : Int) (t : Line), lcRun n (.frac sign t t) = 0) := by
  intro n
  induction n with
  | zero => exact ⟨fun _ => rfl, fun _ _ => rfl, fun _ _ => rfl⟩
  | succ m ih =>
    obtain ⟨ihTop, ihBody, ihFrac⟩ := ih
    refine ⟨?_, ?_, ?_⟩
    · intro s
      cases s with
      | nil => simp [lcRun_top_nil_nil]
      | cons c r =>
        rw [lcRun_top_cons_cons]
        by_cases h : c = '-' <;> simp [h] <;> exact ihBody _ _
    · intro sign u
      rw [lcRun_body_succ]
      simp only [lt_self_iff_false, if_false, cmpStr_self]
      norm_num
      rcases hd : u.drop (digitSpan u) with _ | ⟨a, v⟩
      · rfl
      · simp only [lt_self_iff_false, if_false]
        by_cases hp : a = '.'
        · simp only [hp, if_pos]
          exact ihFrac _ _
        · simp only [if_neg hp]
          exact ihTop _
    · intro sign t
      cases t with
      | nil => simp [lcRun_frac_nil_nil]
      | cons a v =>
        rw [lcRun_frac_cons_cons]
        by_cases h : a = '\t'
        · simp [h]
          exact ihTop _
        · simp [h, lt_irrefl]
          exact ihFrac _ _

/-- Each phase of the comparator only ever returns `-1`, `0` or `1` (the sign
argument is itself always `1` or `-1`). -/
theorem lcRun_vals : ∀ n : Nat,
    (∀ s1 s2 : Line,
      lcRun n (.top s1 s2) = -1 ∨ lcRun n (.top s1 s2) = 0 ∨ lcRun n (.top s1 s2) = 1)
    ∧ (∀ (sign : Int) (u1 u2 : Line), sign = 1 ∨ sign = -1 →
      lcRun n (.body sign u1 u2) = -1 ∨ lcRun n (.body sign u1 u2) = 0
        ∨ lcRun n (.body sign u1 u2) = 1)
    ∧ (∀ (sign : Int) (t1 t2 : Line), sign = 1 ∨ sign = -1 →
      lcRun n (.frac sign t1 t2) = -1 ∨ lcRun n (.frac sign t1 t2) = 0
        ∨ lcRun n (.frac sign t1 t2) = 1) := by
  intro n
  induction n with
  | zero =>
    exact ⟨fun _ _ => Or.inr (Or.inl rfl), fun _ _ _ _ => Or.inr (Or.inl rfl),
      fun _ _ _ _ => Or.inr (Or.inl rfl)⟩
  | succ m ih =>
    obtain ⟨ihTop, ihBody, ihFrac⟩ := ih
    refine ⟨?_, ?_, ?_⟩
    · intro s1 s2
      cases s1 with
      | nil =>
        cases s2 with
        | nil => simp [lcRun_top_nil_nil]
        | cons c2 r2 => simp [lcRun_top_nil_cons]
      | cons c1 r1 =>
        cases s2 with
        | nil => simp [lcRun_top_cons_nil]
        | cons c2 r2 =>
          rw [lcRun_top_cons_cons]
          by_cases h1 : c1 = '-' <;> by_cases h2 : c2 = '-' <;> simp [h1, h2]
          · exact ihBody _ _ _ (Or.inr rfl)
          · exact ihBody _ _ _ (Or.inl rfl)
    · intro sign u1 u2 hs
      rw [lcRun_body_succ]
      split_ifs <;> try omega
      rcases hd1 : u1.drop (digitSpan u1) with _ | ⟨a, v1⟩ <;>
        rcases hd2 : u2.drop (digitSpan u2) with _ | ⟨b, v2⟩
      · norm_num
      · show -sign = -1 ∨ -sign = 0 ∨ -sign = 1
        omega
      · show sign = -1 ∨ sign = 0 ∨ sign = 1
        omega
      · show (if b < a then sign
            else if a < b then -sign
            else if a = '.' then lcRun m (.frac sign v1 v2)
            else lcRun m (.top v1 v2)) = -1 ∨
          (if b < a then sign
            else if a < b then -sign
            else if a = '.' then lcRun m (.frac sign v1 v2)
            else lcRun m (.top v1 v2)) = 0 ∨
          (if b < a then sign
            else if a < b then -sign
            else if a = '.' then lcRun m (.frac sign v1 v2)
            else lcRun m (.top v1 v2)) = 1
        split_ifs <;> try omega
        · exact ihFrac _ _ _ hs
        · exact ihTop _ _
    · intro sign t1 t2 hs
      cases t1 with
      | nil =>
        cases t2 with
        | nil => simp [lcRun_frac_nil_nil]
        | cons b v2 => simp [lcRun_frac_nil_cons]
      | cons a v1 =>
        cases t2 with
        | nil => simp [lcRun_frac_cons_nil]
        | cons b v2 =>
          rw [lcRun_frac_cons_cons]
          split_ifs <;> try omega
          · exact ihTop _ _
          · exact ihFrac _ _ _ hs

/-- `linecomp` flips sign when its arguments are exchanged. -/
theorem linecomp_antisym (a b : Line) : linecomp b a = -linecomp a b := by
  have h1 := (lcRun_antisym (phM (.top a b))).1 a b
  have hm : phM (.top b a) = phM (.top a b) := by simp [phM, Nat.add_comm]
  unfold linecomp
  rw [hm]
  exact h1

/-- `linecomp` of a line with itself is `0`. -/
theorem linecomp_self (a : Line) : linecomp a a = 0 := (lcRun_self _).1 a

/-- `linecomp` only returns `-1`, `0` or `1`. -/
theorem linecomp_cases (a b : Line) :
    linecomp a b = -1 ∨ linecomp a b = 0 ∨ linecomp a b = 1 := (lcRun_vals _).1 a b

theorem phM_succ (p : LcPhase) : phM p = (phM p - 1) + 1 := by
  cases p <;> simp [phM]

/-- The order induced by `linecomp` is total. -/
theorem lineLe_total (a b : Line) : lineLe a b ∨ lineLe b a := by
  unfold lineLe
  have h := linecomp_antisym a b
  by_cases hab : linecomp a b ≤ 0
  · exact Or.inl hab
  · right
    omega

theorem dropZeros_length : ∀ s : Line, (dropZeros s).length ≤ s.length := by
  intro s
  induction s with
  | nil => exact Nat.le_refl _
  | cons c r ih =>
    by_cases h : c = '0'
    · simp only [dropZeros, if_pos h]
      exact le_trans ih (by simp)
    · simp [dropZeros, if_neg h]

theorem dropZeros_head_ne_zero (c : Char) (r : Line) (h : c ≠ '0') :
    dropZeros (c :: r) = c :: r := by
  simp [dropZeros, if_neg h]

theorem digitSpan_head_nondigit (c : Char) (r : Line) (h : isDig c = false) :
    digitSpan (c :: r) = 0 := by
  cases r with
  | nil => rfl
  | cons d t => simp [digitSpan, h]

theorem lcRunG_zero (p : GPhase) : lcRunG 0 p = .ok 0 := rfl

theorem lcRunG_top_succ (n : Nat) (prev : Option (Nat × Nat)) (s1 s2 : Line) :
    lcRunG (n + 1) (.top prev s1 s2) =
      if prev = some (s1.length, s2.length) then .error "Infinite loop in linecomp"
      else
        match s1, s2 with
        | [], [] => .ok 0
        | [], _ :: _ => .ok (-1)
        | _ :: _, [] => .ok 1
        | c1 :: r1, c2 :: r2 =>
          if c1 = '-' then
            if c2 = '-' then
              lcRunG n (.body (r1.length + 1, r2.length + 1) (-1)
                (dropZeros r1) (dropZeros r2))
            else .ok (-1)
          else if c2 = '-' then .ok 1
          else lcRunG n (.body (r1.length + 1, r2.length + 1) 1
                (dropZeros (c1 :: r1)) (dropZeros (c2 :: r2))) := rfl

theorem lcRunG_body_succ (n : Nat) (e : Nat × Nat) (sign : Int) (u1 u2 : Line) :
    lcRunG (n + 1) (.body e sign u1 u2) =
      if digitSpan u2 < digitSpan u1 then .ok sign
      else if digitSpan u1 < digitSpan u2 then .ok (-sign)
      else if cmpStr (u1.take (digitSpan u1)) (u2.take (digitSpan u2)) = 1 then .ok sign
      else if cmpStr (u1.take (digitSpan u1)) (u2.take (digitSpan u2)) = -1 then .ok (-sign)
      else
        match u1.drop (digitSpan u1), u2.drop (digitSpan u2) with
        | [], [] => .ok 0
        | [], _ :: _ => .ok (-sign)
        | _ :: _, [] => .ok sign
        | a :: v1, b :: v2 =>
          if b < a then .ok sign
          else if a < b then .ok (-sign)
          else if a = '.' then lcRunG n (.frac e sign v1 v2)
          else lcRunG n (.top (some e) v1 v2) := rfl

theorem lcRunG_frac_cons_cons (n : Nat) (e : Nat × Nat) (sign : Int) (a b : Char)
    (v1 v2 : Line) :
    lcRunG (n + 1) (.frac e sign (a :: v1) (b :: v2)) =
      if a = '\t' then
        if b = '\t' then lcRunG n (.top (some e) v1 v2)
        else .ok (-sign)
      else if b = '\t' then .ok sign
      else if b < a then .ok sign
      else if a < b then .ok (-sign)
      else lcRunG n (.frac e sign v1 v2) := rfl

/-- The guarded run never reaches the `RuntimeError` guard and agrees with the
unguarded run, as long as the recorded previous first cursor (when present)
lies strictly later in the first line than the current one — which every loop
transition guarantees, since each full iteration strictly advances the first
cursor. -/
theorem lcRunG_ok : ∀ n : Nat,
    (∀ (prev : Option (Nat × Nat)) (s1 s2 : Line),
      (∀ a b : Nat, prev = some (a, b) → s1.length < a) →
      lcRunG n (.top prev s1 s2) = .ok (lcRun n (.top s1 s2)))
    ∧ (∀ (e : Nat × Nat) (sign : Int) (u1 u2 : Line), u1.length ≤ e.1 →
      lcRunG n (.body e sign u1 u2) = .ok (lcRun n (.body sign u1 u2)))
    ∧ (∀ (e : Nat × Nat) (sign : Int) (t1 t2 : Line), t1.length ≤ e.1 →
      lcRunG n (.frac e sign t1 t2) = .ok (lcRun n (.frac sign t1 t2))) := by
  intro n
  induction n with
  | zero => exact ⟨fun _ _ _ _ => rfl, fun _ _ _ _ _ => rfl, fun _ _ _ _ _ => rfl⟩
  | succ m ih =>
    obtain ⟨ihTop, ihBody, ihFrac⟩ := ih
    refine ⟨?_, ?_, ?_⟩
    · intro prev s1 s2 hinv
      rw [lcRunG_top_succ]
      rw [if_neg (fun heq => absurd (hinv _ _ heq) (lt_irrefl _))]
      cases s1 with
      | nil => cases s2 with
        | nil => rfl
        | cons c2 r2 => rfl
      | cons c1 r1 =>
        cases s2 with
        | nil => rfl
        | cons c2 r2 =>
          rw [lcRun_top_cons_cons]
          by_cases h1 : c1 = '-'
          · by_cases h2 : c2 = '-'
            · simp only [h1, h2, if_pos]
              exact ihBody _ _ _ _ (le_trans (dropZeros_length r1) (by omega))
            · simp [h1, h2]
          · by_cases h2 : c2 = '-'
            · simp [h1, h2]
            · simp only [if_neg h1, if_neg h2]
              exact ihBody _ _ _ _ (le_trans (dropZeros_length (c1 :: r1)) (by simp))
    · intro e sign u1 u2 hlen
      rw [lcRunG_body_succ, lcRun_body_succ]
      split_ifs <;> try rfl
      rcases hd1 : u1.drop (digitSpan u1) with _ | ⟨a, v1⟩ <;>
        rcases hd2 : u2.drop (digitSpan u2) with _ | ⟨b, v2⟩
      · rfl
      · rfl
      · rfl
      · have hlt : v1.length < u1.length := by
          have := congrArg List.length hd1
          simp [List.length_drop] at this
          omega
        show (if b < a then Except.ok sign
            else if a < b then Except.ok (-sign)
            else if a = '.' then lcRunG m (.frac e sign v1 v2)
            else lcRunG m (.top (some e) v1 v2)) =
          Except.ok (if b < a then sign
            else if a < b then -sign
            else if a = '.' then lcRun m (.frac sign v1 v2)
            else lcRun m (.top v1 v2))
        split_ifs <;> try rfl
        · exact ihFrac _ _ _ _ (by omega)
        · exact ihTop _ _ _ (by
            intro x y hxy
            obtain ⟨hx, hy⟩ : x = e.1 ∧ y = e.2 := by
              cases e
              simp at hxy
              exact ⟨hxy.1.symm, hxy.2.symm⟩
            omega)
    · intro e sign t1 t2 hlen
      cases t1 with
      | nil => cases t2 with
        | nil => rfl
        | cons b v2 => rfl
      | cons a v1 =>
        cases t2 with
        | nil => rfl
        | cons b v2 =>
          rw [lcRunG_frac_cons_cons, lcRun_frac_cons_cons]
          have hl : v1.length < e.1 := by simp at hlen; omega
          split_ifs <;> try rfl
          · exact ihTop _ _ _ (by
              intro x y hxy
              obtain ⟨hx, hy⟩ : x = e.1 ∧ y = e.2 := by
                cases e
                simp at hxy
                exact ⟨hxy.1.symm, hxy.2.symm⟩
              omega)
          · exact ihFrac _ _ _ _ (by omega)

/-- The guarded comparator never raises and agrees with the unguarded one. -/
theorem linecompChecked_ok (l1 l2 : Line) :
    linecompChecked l1 l2 = .ok (linecomp l1 l2) := by
  unfold linecompChecked linecomp
  exact (lcRunG_ok _).1 none l1 l2 (by intro a b h; cases h)

theorem plainLine_cons {c : Char} {r : Line} (h : plainLine (c :: r)) :
    plainChar c ∧ plainLine r :=
  ⟨h c (List.mem_cons_self c r), fun d hd => h d (List.mem_cons_of_mem c hd)⟩

theorem plainChar_ne_zero {c : Char} (h : plainChar c) : c ≠ '0' := by
  intro he
  rw [he] at h
  exact absurd h.1 (by decide)

/-- On lines with no digit, no `'-'` and no tab, every phase of the iterative
comparator is plain lexicographic comparison. -/
theorem lcRun_plain : ∀ n : Nat,
    (∀ l1 l2 : Line, plainLine l1 → plainLine l2 →
      2 * (l1.length + l2.length) + 2 ≤ n → lcRun n (.top l1 l2) = cmpStr l1 l2)
    ∧ (∀ u1 u2 : Line, plainLine u1 → plainLine u2 →
      2 * (u1.length + u2.length) + 1 ≤ n → lcRun n (.body 1 u1 u2) = cmpStr u1 u2)
    ∧ (∀ t1 t2 : Line, plainLine t1 → plainLine t2 →
      2 * (t1.length + t2.length) + 1 ≤ n → lcRun n (.frac 1 t1 t2) = cmpStr t1 t2) := by
  intro n
  induction n with
  | zero =>
    refine ⟨?_, ?_, ?_⟩ <;> intro a b ha hb hn <;> exact absurd hn (by omega)
  | succ m ih =>
    obtain ⟨ihTop, ihBody, ihFrac⟩ := ih
    refine ⟨?_, ?_, ?_⟩
    · intro l1 l2 h1 h2 hn
      cases l1 with
      | nil =>
        cases l2 with
        | nil => rfl
        | cons c2 r2 => rfl
      | cons c1 r1 =>
        cases l2 with
        | nil => rfl
        | cons c2 r2 =>
          obtain ⟨hp1, hr1⟩ := plainLine_cons h1
          obtain ⟨hp2, hr2⟩ := plainLine_cons h2
          rw [lcRun_top_cons_cons, if_neg hp1.2.1, if_neg hp2.2.1]
          rw [dropZeros_head_ne_zero _ _ (plainChar_ne_zero hp1),
            dropZeros_head_ne_zero _ _ (plainChar_ne_zero hp2)]
          exact ihBody (c1 :: r1) (c2 :: r2) h1 h2 (by simp at hn ⊢; omega)
    · intro u1 u2 h1 h2 hn
      cases u1 with
      | nil =>
        cases u2 with
        | nil => rfl
        | cons b v2 =>
          obtain ⟨hp2, hr2⟩ := plainLine_cons h2
          rw [lcRun_body_succ, digitSpan_head_nondigit _ _ hp2.1]
          rfl
      | cons a v1 =>
        cases u2 with
        | nil =>
          obtain ⟨hp1, hr1⟩ := plainLine_cons h1
          rw [lcRun_body_succ, digitSpan_head_nondigit _ _ hp1.1]
          rfl
        | cons b v2 =>
          obtain ⟨hp1, hr1⟩ := plainLine_cons h1
          obtain ⟨hp2, hr2⟩ := plainLine_cons h2
          rw [lcRun_body_succ, digitSpan_head_nondigit _ _ hp1.1,
            digitSpan_head_nondigit _ _ hp2.1]
          show (if b < a then (1 : Int)
              else if a < b then -1
              else if a = '.' then lcRun m (.frac 1 v1 v2)
              else lcRun m (.top v1 v2)) = cmpStr (a :: v1) (b :: v2)
          simp only [cmpStr]
          rcases lt_trichotomy a b with hab | hab | hab
          · simp [hab, lt_asymm hab]
          · subst hab
            simp only [lt_irrefl, if_false, lt_self_iff_false]
            by_cases hp : a = '.'
            · rw [if_pos hp]
              exact ihFrac v1 v2 hr1 hr2 (by simp at hn ⊢; omega)
            · rw [if_neg hp]
              exact ihTop v1 v2 hr1 hr2 (by simp at hn ⊢; omega)
          · simp [hab, lt_asymm hab]
    · intro t1 t2 h1 h2 hn
      cases t1 with
      | nil =>
        cases t2 with
        | nil => rfl
        | cons b v2 => rfl
      | cons a v1 =>
        cases t2 with
        | nil => rfl
        | cons b v2 =>
          obtain ⟨hp1, hr1⟩ := plainLine_cons h1
          obtain ⟨hp2, hr2⟩ := plainLine_cons h2
          rw [lcRun_frac_cons_cons, if_neg hp1.2.2, if_neg hp2.2.2]
          simp only [cmpStr]
          rcases lt_trichotomy a b with hab | hab | hab
          · simp [hab, lt_asymm hab]
          · subst hab
            simp only [lt_irrefl, if_false, lt_self_iff_false]
            exact ihFrac v1 v2 hr1 hr2 (by simp at hn ⊢; omega)
          · simp [hab, lt_asymm hab]

/-- On plain lines, the iterative comparator is lexicographic comparison. -/
theorem linecomp_plain (l1 l2 : Line) (h1 : plainLine l1) (h2 : plainLine l2) :
    linecomp l1 l2 = cmpStr l1 l2 :=
  (lcRun_plain _).1 l1 l2 h1 h2 (Nat.le_refl _)

theorem splitTab_no_tab : ∀ l : Line, (∀ c ∈ l, c ≠ '\t') → splitTab l = (l, none) := by
  intro l
  induction l with
  | nil => intro _; rfl
  | cons c r ih =>
    intro h
    have hc : c ≠ '\t' := h c (List.mem_cons_self c r)
    have hr := ih fun d hd => h d (List.mem_cons_of_mem c hd)
    simp [splitTab, hc, hr]

theorem takeWhile_isDig_eq_nil :
    ∀ l : Line, (∀ c ∈ l, isDig c = false) → l.takeWhile isDig = [] := by
  intro l h
  cases l with
  | nil => rfl
  | cons c r => simp [List.takeWhile, h c (List.mem_cons_self c r)]

/-- `parseBody` rejects any digit-free string. -/
theorem parseBody_no_digits (sgn : Int) (t : Line) (h : ∀ c ∈ t, isDig c = false) :
    parseBody sgn t = none := by
  have hip := takeWhile_isDig_eq_nil t h
  cases t with
  | nil => rfl
  | cons c fr =>
    have hfr : fr.takeWhile isDig = [] :=
      takeWhile_isDig_eq_nil fr fun d hd => h d (List.mem_cons_of_mem c hd)
    unfold parseBody
    rw [hip]
    simp only [List.length_nil, List.drop_zero]
    show (if c = '.' then
        if (fr.drop (fr.takeWhile isDig).length).isEmpty then
          if (([] : Line).isEmpty && (fr.takeWhile isDig).isEmpty) then none
          else some (Dec.mk (sgn * digitsVal ([] ++ fr.takeWhile isDig))
            (fr.takeWhile isDig).length)
        else none
      else none) = none
    by_cases hdot : c = '.'
    · rw [if_pos hdot, hfr]
      simp only [List.length_nil, List.drop_zero]
      cases fr with
      | nil => rfl
      | cons d fr2 => rfl
    · rw [if_neg hdot]

/-- `parsePlain` rejects any digit-free string. -/
theorem parsePlain_no_digits (s : Line) (h : ∀ c ∈ s, isDig c = false) :
    parsePlain s = none := by
  cases s with
  | nil => rfl
  | cons c r =>
    have hr : ∀ d ∈ r, isDig d = false := fun d hd => h d (List.mem_cons_of_mem c hd)
    unfold parsePlain
    show (if c = '-' then parseBody (-1) r
      else if c = '+' then parseBody 1 r
      else parseBody 1 (c :: r)) = none
    by_cases hm : c = '-'
    · rw [if_pos hm]
      exact parseBody_no_digits _ r hr
    · rw [if_neg hm]
      by_cases hp : c = '+'
      · rw [if_pos hp]
        exact parseBody_no_digits _ r hr
      · rw [if_neg hp]
        exact parseBody_no_digits _ (c :: r) h

/-- The `float` model rejects any digit-free string. -/
theorem pyFloat_no_digits (s : Line) (h : ∀ c ∈ s, isDig c = false) : pyFloat s = none := by
  unfold pyFloat
  by_cases hu : uVal none s
  · rw [if_pos hu]
    exact parsePlain_no_digits _ fun c hc => h c (List.mem_of_mem_filter hc)
  · rw [if_neg hu]

/-- On plain lines, `try_float` returns the string unchanged. -/
theorem try_float_plain (s : Line) (h : plainLine s) : try_float s = .inr s := by
  cases s with
  | nil => rfl
  | cons c r =>
    obtain ⟨⟨hdg, hm, _⟩, _⟩ := plainLine_cons h
    have hpf : pyFloat (c :: r) = none := pyFloat_no_digits (c :: r) fun d hd => (h d hd).1
    unfold try_float
    show (if (isDig c || decide (c = '.') || decide (c = '-')) = true then
        match pyFloat (c :: r) with
        | some q => Sum.inl q
        | none => Sum.inr (c :: r)
      else Sum.inr (c :: r)) = Sum.inr (c :: r)
    rw [hpf]
    by_cases hcond : (isDig c || decide (c = '.') || decide (c = '-')) = true
    · rw [if_pos hcond]
    · rw [if_neg hcond]

theorem oldLcF_succ (n : Nat) (l1 l2 : Line) :
    oldLcF (n + 1) l1 l2 =
      if pyCmp (try_float (splitTab l1).1) (try_float (splitTab l2).1) = 0 then
        match (splitTab l1).2, (splitTab l2).2 with
        | some t1, some t2 => oldLcF n t1 t2
        | _, _ => 0
      else pyCmp (try_float (splitTab l1).1) (try_float (splitTab l2).1) := rfl

/-- On plain lines, the recursive comparator is lexicographic comparison. -/
theorem oldLinecomp_plain (l1 l2 : Line) (h1 : plainLine l1) (h2 : plainLine l2) :
    oldLinecomp l1 l2 = cmpStr l1 l2 := by
  unfold oldLinecomp
  rw [oldLcF_succ]
  rw [splitTab_no_tab l1 fun c hc => (h1 c hc).2.2,
    splitTab_no_tab l2 fun c hc => (h2 c hc).2.2]
  simp only
  rw [try_float_plain l1 h1, try_float_plain l2 h2]
  show (if cmpStr l1 l2 = 0 then _ else cmpStr l1 l2) = cmpStr l1 l2
  by_cases hz : cmpStr l1 l2 = 0
  · rw [if_pos hz]
    exact hz.symm
  · rw [if_neg hz]

/-- On plain lines, the two comparators agree exactly. -/
theorem comparators_agree_plain (l1 l2 : Line) (h1 : plainLine l1) (h2 : plainLine l2) :
    oldLinecomp l1 l2 = linecomp l1 l2 := by
  rw [oldLinecomp_plain l1 l2 h1 h2, linecomp_plain l1 l2 h1 h2]

theorem insertLine_perm (x : Line) : ∀ l : List Line, (insertLine x l).Perm (x :: l) := by
  intro l
  induction l with
  | nil => exact List.Perm.refl _
  | cons y ys ih =>
    unfold insertLine
    by_cases hxy : linecomp x y ≤ 0
    · rw [if_pos hxy]
    · rw [if_neg hxy]
      exact (ih.cons y).trans (List.Perm.swap x y ys)

theorem insertLine_chain (x : Line) :
    ∀ l : List Line, List.Chain' lineLe l → List.Chain' lineLe (insertLine x l) := by
  intro l
  induction l with
  | nil => intro _; simp [insertLine]
  | cons y ys ih =>
    intro h
    obtain ⟨hhead, htail⟩ := List.chain'_cons'.1 h
    unfold insertLine
    by_cases hxy : linecomp x y ≤ 0
    · rw [if_pos hxy]
      exact List.chain'_cons'.2 ⟨fun b hb => by simp at hb; subst hb; exact hxy, h⟩
    · rw [if_neg hxy]
      refine List.chain'_cons'.2 ⟨?_, ih htail⟩
      intro b hb
      have hyx : lineLe y x := by
        rcases lineLe_total x y with hx | hx
        · exact absurd hx hxy
        · exact hx
      cases ys with
      | nil =>
        simp [insertLine] at hb
        subst hb
        exact hyx
      | cons z zs =>
        unfold insertLine at hb
        by_cases hxz : linecomp x z ≤ 0
        · rw [if_pos hxz] at hb
          simp at hb
          subst hb
          exact hyx
        · rw [if_neg hxz] at hb
          simp at hb
          subst hb
          exact hhead z (by simp)

theorem sort_lines_perm : ∀ l : List Line, (sort_lines l).Perm l := by
  intro l
  induction l with
  | nil => exact List.Perm.refl _
  | cons x xs ih =>
    show (insertLine x (sort_lines xs)).Perm (x :: xs)
    exact (insertLine_perm x _).trans (ih.cons x)

theorem sort_lines_chain (l : List Line) : List.Chain' lineLe (sort_lines l) := by
  induction l with
  | nil => simp [sort_lines]
  | cons x xs ih =>
    show List.Chain' lineLe (insertLine x (sort_lines xs))
    exact insertLine_chain x _ ih

theorem mergeF_perm : ∀ (n : Nat) (l1 l2 : List Line), (mergeF n l1 l2).Perm (l1 ++ l2) := by
  intro n
  induction n with
  | zero => intro l1 l2; exact List.Perm.refl _
  | succ m ih =>
    intro l1 l2
    cases l1 with
    | nil => simp [mergeF]
    | cons a t1 =>
      cases l2 with
      | nil => simp [mergeF]
      | cons b t2 =>
        rw [show mergeF (m + 1) (a :: t1) (b :: t2) =
          if linecomp a b ≤ 0 then a :: mergeF m t1 (b :: t2)
          else b :: mergeF m (a :: t1) t2 from rfl]
        by_cases hab : linecomp a b ≤ 0
        · rw [if_pos hab]
          exact (ih _ _).cons a
        · rw [if_neg hab]
          exact ((ih _ _).cons b).trans List.perm_middle.symm

theorem mergeF_head : ∀ (n : Nat) (l1 l2 : List Line),
    (mergeF n l1 l2).head? = l1.head? ∨ (mergeF n l1 l2).head? = l2.head? := by
  intro n l1 l2
  cases n with
  | zero =>
    cases l1 with
    | nil => right; rfl
    | cons a t1 => left; rfl
  | succ m =>
    cases l1 with
    | nil => right; simp [mergeF]
    | cons a t1 =>
      cases l2 with
      | nil => left; simp [mergeF]
      | cons b t2 =>
        rw [show mergeF (m + 1) (a :: t1) (b :: t2) =
          if linecomp a b ≤ 0 then a :: mergeF m t1 (b :: t2)
          else b :: mergeF m (a :: t1) t2 from rfl]
        by_cases hab : linecomp a b ≤ 0
        · left
          rw [if_pos hab]
          rfl
        · right
          rw [if_neg hab]
          rfl

theorem mergeF_chain : ∀ (n : Nat) (l1 l2 : List Line),
    l1.length + l2.length ≤ n → List.Chain' lineLe l1 → List.Chain' lineLe l2 →
    List.Chain' lineLe (mergeF n l1 l2) := by
  intro n
  induction n with
  | zero =>
    intro l1 l2 hn h1 h2
    obtain rfl : l1 = [] := List.length_eq_zero.1 (by omega)
    obtain rfl : l2 = [] := List.length_eq_zero.1 (by omega)
    simp [mergeF]
  | succ m ih =>
    intro l1 l2 hn h1 h2
    cases l1 with
    | nil => simpa [mergeF] using h2
    | cons a t1 =>
      cases l2 with
      | nil => simpa [mergeF] using h1
      | cons b t2 =>
        obtain ⟨hh1, ht1⟩ := List.chain'_cons'.1 h1
        obtain ⟨hh2, ht2⟩ := List.chain'_cons'.1 h2
        rw [show mergeF (m + 1) (a :: t1) (b :: t2) =
          if linecomp a b ≤ 0 then a :: mergeF m t1 (b :: t2)
          else b :: mergeF m (a :: t1) t2 from rfl]
        by_cases hab : linecomp a b ≤ 0
        · rw [if_pos hab]
          refine List.chain'_cons'.2
            ⟨?_, ih t1 (b :: t2) (by simp at hn ⊢; omega) ht1 h2⟩
          intro c hc
          rcases mergeF_head m t1 (b :: t2) with hh | hh
          · rw [hh] at hc
            exact hh1 c hc
          · rw [hh] at hc
            simp at hc
            subst hc
            exact hab
        · rw [if_neg hab]
          refine List.chain'_cons'.2
            ⟨?_, ih (a :: t1) t2 (by simp at hn ⊢; omega) h1 ht2⟩
          intro c hc
          rcases mergeF_head m (a :: t1) t2 with hh | hh
          · rw [hh] at hc
            simp at hc
            subst hc
            rcases lineLe_total a b with hx | hx
            · exact absurd hx hab
            · exact hx
          · rw [hh] at hc
            exact hh2 c hc

theorem kMergeAll_perm : ∀ ls : List (List Line), (kMergeAll ls).Perm ls.flatten := by
  intro ls
  induction ls with
  | nil => exact List.Perm.refl _
  | cons l ls ih =>
    show (merge2 l (kMergeAll ls)).Perm ((l :: ls).flatten)
    refine (mergeF_perm _ _ _).trans ?_
    simp only [List.flatten_cons]
    exact List.Perm.append_left l ih

theorem kMergeAll_chain : ∀ ls : List (List Line),
    (∀ p ∈ ls, List.Chain' lineLe p) → List.Chain' lineLe (kMergeAll ls) := by
  intro ls
  induction ls with
  | nil => intro _; simp [kMergeAll]
  | cons l ls ih =>
    intro h
    show List.Chain' lineLe (merge2 l (kMergeAll ls))
    exact mergeF_chain _ _ _ (Nat.le_refl _) (h l (by simp))
      (ih fun p hp => h p (by simp [hp]))

theorem appendLine_ok (szL : Nat → Int) (szS : Line → Int) (mM : Int)
    (s : MergeSort) (line : Line) (h : s.iterating = none) :
    appendLine szL szS mM s line = .ok (appendB szL szS mM s line) := by
  unfold appendLine appendB
  rw [h]
  rfl

theorem flushState_iterating (szL : Nat → Int) (s : MergeSort) :
    (flushState szL s).iterating = s.iterating := rfl

theorem flushState_partitions (szL : Nat → Int) (s : MergeSort) :
    (flushState szL s).partitions =
      if s.buffer.isEmpty then s.partitions
      else s.partitions ++ [sort_lines s.buffer] := rfl

theorem flushState_buffer (szL : Nat → Int) (s : MergeSort) :
    (flushState szL s).buffer = [] := rfl

theorem appendB_iterating (szL : Nat → Int) (szS : Line → Int) (mM : Int)
    (s : MergeSort) (line : Line) :
    (appendB szL szS mM s line).iterating = s.iterating := by
  unfold appendB
  dsimp only
  split_ifs <;> rfl

theorem flushState_partsChain (szL : Nat → Int) {s : MergeSort} (h : partsChain s) :
    partsChain (flushState szL s) := by
  intro p hp
  rw [flushState_partitions] at hp
  by_cases hb : s.buffer.isEmpty
  · rw [if_pos hb] at hp
    exact h p hp
  · rw [if_neg hb] at hp
    rcases List.mem_append.1 hp with h1 | h1
    · exact h p h1
    · simp at h1
      subst h1
      exact sort_lines_chain _

theorem appendB_partsChain (szL : Nat → Int) (szS : Line → Int) (mM : Int)
    {s : MergeSort} (line : Line) (h : partsChain s) :
    partsChain (appendB szL szS mM s line) := by
  unfold appendB
  dsimp only
  split_ifs
  · exact flushState_partsChain szL fun p hp => h p hp
  · exact fun p hp => h p hp

theorem allLines_flushState (szL : Nat → Int) (s : MergeSort) :
    (allLines (flushState szL s)).Perm (allLines s) := by
  unfold allLines
  rw [flushState_partitions, flushState_buffer]
  by_cases hb : s.buffer.isEmpty
  · obtain hb' : s.buffer = [] := by simpa using hb
    rw [if_pos hb, hb']
  · rw [if_neg hb]
    simp only [List.flatten_append, List.flatten_cons, List.flatten_nil,
      List.append_nil]
    exact List.Perm.append_left _ (sort_lines_perm _)

theorem allLines_appendB (szL : Nat → Int) (szS : Line → Int) (mM : Int)
    (s : MergeSort) (line : Line) :
    (allLines (appendB szL szS mM s line)).Perm (allLines s ++ [line]) := by
  unfold appendB
  dsimp only
  split_ifs
  · refine (allLines_flushState _ _).trans ?_
    show (s.partitions.flatten ++ (s.buffer ++ [line])).Perm
      ((s.partitions.flatten ++ s.buffer) ++ [line])
    rw [List.append_assoc]
  · show (s.partitions.flatten ++ (s.buffer ++ [line])).Perm
      ((s.partitions.flatten ++ s.buffer) ++ [line])
    rw [List.append_assoc]

theorem build_aux (szL : Nat → Int) (szS : Line → Int) (mM : Int) :
    ∀ (lines : List Line) (s : MergeSort),
      (lines.foldl (appendB szL szS mM) s).iterating = s.iterating
      ∧ (partsChain s → partsChain (lines.foldl (appendB szL szS mM) s))
      ∧ (allLines (lines.foldl (appendB szL szS mM) s)).Perm (allLines s ++ lines)
      ∧ (s.iterating = none →
          lines.foldlM (appendLine szL szS mM) s = .ok (lines.foldl (appendB szL szS mM) s)) := by
  intro lines
  induction lines with
  | nil =>
    intro s
    exact ⟨rfl, fun h => h, by simp, fun _ => rfl⟩
  | cons l ls ih =>
    intro s
    obtain ⟨ih1, ih2, ih3, ih4⟩ := ih (appendB szL szS mM s l)
    refine ⟨?_, ?_, ?_, ?_⟩
    · rw [List.foldl_cons, ih1, appendB_iterating]
    · intro h
      rw [List.foldl_cons]
      exact ih2 (appendB_partsChain _ _ _ _ h)
    · rw [List.foldl_cons]
      refine ih3.trans ?_
      refine (List.Perm.append_right ls (allLines_appendB szL szS mM s l)).trans ?_
      rw [List.append_assoc]
      exact List.Perm.refl _
    · intro h
      rw [List.foldl_cons, List.foldlM_cons, appendLine_ok _ _ _ _ _ h]
      show Except.bind (Except.ok (appendB szL szS mM s l)) _ = _
      rw [Except.bind]
      exact ih4 (by rw [appendB_iterating]; exact h)

theorem build_iterating (szL : Nat → Int) (szS : Line → Int) (mM : Int)
    (lines : List Line) : (build szL szS mM lines).iterating = none :=
  (build_aux szL szS mM lines (initState szL)).1

theorem build_partsChain (szL : Nat → Int) (szS : Line → Int) (mM : Int)
    (lines : List Line) : partsChain (build szL szS mM lines) :=
  (build_aux szL szS mM lines (initState szL)).2.1 fun p hp => absurd hp (by simp [initState])

theorem build_perm (szL : Nat → Int) (szS : Line → Int) (mM : Int)
    (lines : List Line) : (allLines (build szL szS mM lines)).Perm lines := by
  have h := (build_aux szL szS mM lines (initState szL)).2.2.1
  simpa [allLines, initState] using h

theorem buildE_ok (szL : Nat → Int) (szS : Line → Int) (mM : Int)
    (lines : List Line) : buildE szL szS mM lines = .ok (build szL szS mM lines) :=
  (build_aux szL szS mM lines (initState szL)).2.2.2 rfl

theorem outLines_perm (s : MergeSort) : (outLines s).Perm (allLines s) := by
  unfold outLines allLines
  by_cases hp : s.partitions.isEmpty
  · rw [if_pos hp]
    obtain hp' : s.partitions = [] := by simpa using hp
    rw [hp']
    simpa using sort_lines_perm s.buffer
  · rw [if_neg hp]
    by_cases hb : s.buffer.isEmpty
    · rw [if_pos hb]
      obtain hb' : s.buffer = [] := by simpa using hb
      rw [hb']
      simpa using kMergeAll_perm s.partitions
    · rw [if_neg hb]
      refine (kMergeAll_perm _).trans ?_
      simp only [List.flatten_append, List.flatten_cons, List.flatten_nil,
        List.append_nil]
      exact List.Perm.append_left _ (sort_lines_perm _)

theorem outLines_chain {s : MergeSort} (h : partsChain s) :
    List.Chain' lineLe (outLines s) := by
  unfold outLines
  by_cases hp : s.partitions.isEmpty
  · rw [if_pos hp]
    exact sort_lines_chain _
  · rw [if_neg hp]
    apply kMergeAll_chain
    intro p hpmem
    by_cases hb : s.buffer.isEmpty
    · rw [if_pos hb] at hpmem
      exact h p hpmem
    · rw [if_neg hb] at hpmem
      rcases List.mem_append.1 hpmem with h1 | h1
      · exact h p h1
      · simp at h1
        subst h1
        exact sort_lines_chain _

theorem startState_iterating (szL : Nat → Int) (s : MergeSort) :
    (startState szL s).iterating = some (outLines s) := by
  unfold startState outLines
  by_cases hp : s.partitions.isEmpty
  · rw [if_pos hp, if_pos hp]
  · rw [if_neg hp, if_neg hp]
    show some (kMergeAll (flushState szL s).partitions) = _
    rw [flushState_partitions]

theorem drains_iter (szL : Nat → Int) :
    ∀ (r : List Line) (s : MergeSort), s.iterating = some r → Drains szL s r := by
  intro r
  induction r with
  | nil =>
    intro s h
    refine Drains.nil s ?_
    simp [nextLine, h]
  | cons l ls ih =>
    intro s h
    refine Drains.cons s l { s with iterating := some ls } ls ?_ (ih _ rfl)
    simp [nextLine, h]

theorem nextLine_of_start (szL : Nat → Int) (s : MergeSort) (h : s.iterating = none) :
    nextLine szL s = nextLine szL (startState szL s) := by
  unfold nextLine startState
  rw [h]
  by_cases hp : s.partitions.isEmpty
  · rw [if_pos hp]
  · rw [if_neg hp]

theorem drains_out (szL : Nat → Int) (s : MergeSort) (h : s.iterating = none) :
    Drains szL s (outLines s) := by
  have hs1 := startState_iterating szL s
  have hnext := nextLine_of_start szL s h
  cases hout : outLines s with
  | nil =>
    rw [hout] at hs1
    refine Drains.nil s ?_
    rw [hnext]
    simp [nextLine, hs1]
  | cons l ls =>
    rw [hout] at hs1
    refine Drains.cons s l { startState szL s with iterating := some ls } ls ?_
      (drains_iter szL ls _ rfl)
    rw [hnext]
    simp [nextLine, hs1]

theorem nextLine_starts_iterating (szL : Nat → Int) (s : MergeSort) :
    ((nextLine szL s).2).iterating.isSome = true := by
  unfold nextLine
  rcases hit : s.iterating with _ | r
  · by_cases hp : s.partitions.isEmpty
    · rcases hsl : sort_lines s.buffer with _ | ⟨l, ls⟩ <;> simp [hit, hp, hsl]
    · rcases hk : kMergeAll (flushState szL s).partitions with _ | ⟨l, ls⟩ <;>
        simp [hit, hp, hk]
  · rcases r with _ | ⟨l, ls⟩ <;> simp [hit]

theorem nextSteps_isSome (szL : Nat → Int) :
    ∀ (k : Nat) (s : MergeSort), (nextSteps szL (k + 1) s).iterating.isSome = true := by
  intro k
  induction k with
  | zero =>
    intro s
    show ((fun t => (nextLine szL t).2)^[1] s).iterating.isSome = true
    rw [Function.iterate_one]
    exact nextLine_starts_iterating szL s
  | succ m ih =>
    intro s
    show ((fun t => (nextLine szL t).2)^[m + 1 + 1] s).iterating.isSome = true
    rw [Function.iterate_succ_apply]
    exact ih _

theorem appendLine_err (szL : Nat → Int) (szS : Line → Int) (mM : Int)
    (s : MergeSort) (line : Line) (h : s.iterating.isSome = true) :
    appendLine szL szS mM s line = .error "Cannot append lines after starting to sort" := by
  unfold appendLine
  rw [if_pos h]

/-- Claim C1.  For every finite sequence of lines appended to a `MergeSort`
instance — under any `sys.getsizeof` model and any memory ceiling — every
append succeeds, and iterating the instance yields exactly `outLines` of the
built state: a permutation of the appended lines that is nondecreasing under
the comparator.  In particular appending the twelve lines
`3,1,4,1,5,9,2,6,5,3,8,4` and draining yields `1,1,2,3,3,4,4,5,5,6,8,9`, both
with a ceiling of 4 units (which forces six spilled partitions) and with a
ceiling of 1000000 (which keeps everything resident, spilling nothing). -/
theorem mergeSort_permutation_sorted_end_to_end :
    (∀ (szList : Nat → Int) (szStr : Line → Int) (maxMemory : Int) (lines : List Line),
      buildE szList szStr maxMemory lines = .ok (build szList szStr maxMemory lines)
      ∧ Drains szList (build szList szStr maxMemory lines)
          (outLines (build szList szStr maxMemory lines))
      ∧ (outLines (build szList szStr maxMemory lines)).Perm lines
      ∧ List.Chain' lineLe (outLines (build szList szStr maxMemory lines)))
    ∧ outLines (build lenL lenS 4 twelve) = twelveSorted
    ∧ outLines (build lenL lenS 1000000 twelve) = twelveSorted
    ∧ (build lenL lenS 4 twelve).partitions.length = 6
    ∧ (build lenL lenS 1000000 twelve).partitions = [] := by
  refine ⟨?_, by decide, by decide, by decide, by decide⟩
  intro szL szS mM lines
  exact ⟨buildE_ok szL szS mM lines,
    drains_out szL _ (build_iterating szL szS mM lines),
    (outLines_perm _).trans (build_perm szL szS mM lines),
    outLines_chain (build_partsChain szL szS mM lines)⟩

/-- Claim C2 counterexample.  The claim orders the NULL token strictly below
every numeral field, but `linecomp` puts `\N` after the negative numeral `-5`
and after the single-digit numeral `7` (the claim requires `-1` both times). -/
theorem null_token_counterexample :
    linecompS "\\N" "-5" = 1 ∧ linecompS "\\N" "7" = 1 := by
  exact ⟨by decide, by decide⟩

/-- Claim C2 (amended).  Under `linecomp` the NULL-token record compares
strictly greater than an empty record and strictly greater than any record
whose first field is negative (begins with `'-'`); the resulting order puts
the empty record first, the negative-numeral record second and the NULL-token
record last.  (The NULL token does not sort below all numerals: it sorts
above `-5`, `0` and `7`, though below `42`.) -/
theorem null_token_amended_order :
    ∀ r1 r2 : Line,
      linecomp [] ('\\' :: 'N' :: r1) = -1
      ∧ linecomp [] ('-' :: r2) = -1
      ∧ linecomp ('-' :: r2) ('\\' :: 'N' :: r1) = -1
      ∧ linecomp ('\\' :: 'N' :: r1) ('-' :: r2) = 1
      ∧ linecomp ('\\' :: 'N' :: r1) [] = 1 := by
  intro r1 r2
  refine ⟨?_, ?_, ?_, ?_, ?_⟩ <;> unfold linecomp
  · rw [phM_succ, lcRun_top_nil_cons]
  · rw [phM_succ, lcRun_top_nil_cons]
  · rw [phM_succ, lcRun_top_cons_cons, if_pos rfl, if_neg (by decide : ¬('\\' = '-'))]
  · rw [phM_succ, lcRun_top_cons_cons, if_neg (by decide : ¬('\\' = '-')), if_pos rfl]
  · rw [phM_succ, lcRun_top_cons_nil]

/-- Claim C3 (code bug).  Three of the four documented numeral orderings hold,
but `linecomp "42" "42.0"` returns `-1` instead of the claimed `0`: when a
field's digits run to the end of the line, the Python `for` loop leaves the
scan index on the last digit, so `"42"` is treated as having fewer integer
digits than `"42.0"`.  The repository's own test table asserts
`('42', '42.0', 0)`. -/
theorem numeral_comparison_divergence :
    linecompS "0.42" "0.042" = 1 ∧ linecompS "4.2" "42.0" = -1
    ∧ linecompS "-.42" ".42" = -1 ∧ linecompS "42" "42.0" = -1 := by
  exact ⟨by decide, by decide, by decide, by decide⟩

/-- Claim C4 counterexample.  `"a"` fails to parse as a numeral, yet
`linecomp` does not fall back to lexicographic comparison of the fields:
it returns `-1` on `("a", "53")` although `"a" > "53"` lexicographically. -/
theorem nonnumeral_not_lexicographic :
    linecompS "a" "53" = -1 ∧ cmpStr "a".data "53".data = 1 := by
  exact ⟨by decide, by decide⟩

theorem c4_aux (n : Nat) (c1 c2 : Char) (r1 r2 : Line)
    (h1 : isDig c1 = false) (h2 : isDig c2 = false)
    (m1 : c1 ≠ '-') (m2 : c2 ≠ '-') (hne : c1 ≠ c2) :
    lcRun (n + 2) (.top (c1 :: r1) (c2 :: r2)) = if c1 < c2 then -1 else 1 := by
  rw [lcRun_top_cons_cons, if_neg m1, if_neg m2]
  have hz1 : c1 ≠ '0' := fun he => by rw [he] at h1; exact absurd h1 (by decide)
  have hz2 : c2 ≠ '0' := fun he => by rw [he] at h2; exact absurd h2 (by decide)
  rw [dropZeros_head_ne_zero _ _ hz1, dropZeros_head_ne_zero _ _ hz2]
  rw [lcRun_body_succ, digitSpan_head_nondigit _ _ h1, digitSpan_head_nondigit _ _ h2]
  simp only [lt_self_iff_false, if_false, List.take_zero, List.drop_zero]
  norm_num [cmpStr]
  show (if c2 < c1 then (1 : Int)
      else if c1 < c2 then -1
      else if c1 = '.' then lcRun n (.frac 1 r1 r2)
      else lcRun n (.top r1 r2)) = if c1 < c2 then -1 else 1
  rcases lt_trichotomy c1 c2 with h | h | h
  · rw [if_neg (lt_asymm h), if_pos h, if_pos h]
  · exact absurd h hne
  · rw [if_pos h, if_neg (lt_asymm h)]

/-- Claim C4 (amended).  When both records' first characters are non-digits
other than `'-'` and they differ, `linecomp` returns the character-code
comparison of those first characters; but full lexicographic comparison of
the whole heads does not hold (see `nonnumeral_not_lexicographic`), because a
digit run encountered at any position is compared by span and value rather
than character by character. -/
theorem nonnumeral_head_char_compare (c1 c2 : Char) (r1 r2 : Line)
    (h1 : isDig c1 = false) (h2 : isDig c2 = false)
    (m1 : c1 ≠ '-') (m2 : c2 ≠ '-') (hne : c1 ≠ c2) :
    linecomp (c1 :: r1) (c2 :: r2) = if c1 < c2 then -1 else 1 := by
  unfold linecomp
  show lcRun (2 * ((c1 :: r1).length + (c2 :: r2).length) + 2) _ = _
  have hfuel : 2 * ((c1 :: r1).length + (c2 :: r2).length) + 2 =
      (2 * ((c1 :: r1).length + (c2 :: r2).length)) + 2 := rfl
  rw [hfuel]
  exact c4_aux _ c1 c2 r1 r2 h1 h2 m1 m2 hne

/-- Witness for C4 at a concrete input. -/
theorem nonnumeral_head_char_compare_witness :
    linecomp ['a'] ['b'] = if 'a' < 'b' then -1 else 1 :=
  nonnumeral_head_char_compare 'a' 'b' [] [] (by decide) (by decide) (by decide)
    (by decide) (by decide)

/-- Claim C5 counterexample.  The recursive and iterative comparators are not
sign-equivalent: on `('"32.0"', '"4.20"')` the recursive comparator compares
lexicographically (the heads do not start with a numeral character) and
returns `-1`, while the iterative one compares the embedded digit runs and
returns `1`; on `('-1.5', '-1.52')` the recursive comparator returns `1`
(numerically `-1.5 > -1.52`) while the iterative one returns `-1` (its
fractional-length tie-break ignores the recorded sign). -/
theorem comparator_divergence_counterexample :
    oldLinecomp "\"32.0\"".data "\"4.20\"".data = -1
    ∧ linecompS "\"32.0\"" "\"4.20\"" = 1
    ∧ oldLinecomp "-1.5".data "-1.52".data = 1
    ∧ linecompS "-1.5" "-1.52" = -1 := by
  exact ⟨by decide, by decide, by decide, by decide⟩

/-- Claim C5 (amended).  The two comparators agree — both reduce to plain
lexicographic comparison — on records containing no digit, no `'-'` and no
tab character. -/
theorem comparators_agree_on_plain_records (l1 l2 : Line)
    (h1 : plainLine l1) (h2 : plainLine l2) :
    oldLinecomp l1 l2 = linecomp l1 l2 :=
  comparators_agree_plain l1 l2 h1 h2

/-- Witness for C5 at a concrete input. -/
theorem comparators_agree_on_plain_records_witness :
    oldLinecomp "foo".data "fop".data = linecomp "foo".data "fop".data :=
  comparators_agree_on_plain_records "foo".data "fop".data
    (by unfold plainLine plainChar; decide) (by unfold plainLine plainChar; decide)

/-- Claim C6.  `linecomp` is total: on every pair of lines the guarded run
returns a value rather than the `RuntimeError` (the guard is unreachable),
and the value is always one of `-1`, `0`, `1`. -/
theorem linecomp_total_no_runtime_error :
    ∀ l1 l2 : Line,
      linecompChecked l1 l2 = .ok (linecomp l1 l2)
      ∧ (linecomp l1 l2 = -1 ∨ linecomp l1 l2 = 0 ∨ linecomp l1 l2 = 1) :=
  fun l1 l2 => ⟨linecompChecked_ok l1 l2, linecomp_cases l1 l2⟩

/-- Claim C7.  After the first `__next__` call on a `MergeSort` instance (and
after any number of further calls), `append` raises `ValueError` instead of
silently accepting the line: the Building-to-Draining transition is one-way. -/
theorem append_after_drain_raises :
    ∀ (szList : Nat → Int) (szStr : Line → Int) (maxMemory : Int)
      (s : MergeSort) (line : Line) (k : Nat),
      appendLine szList szStr maxMemory (nextSteps szList (k + 1) s) line
        = .error "Cannot append lines after starting to sort" :=
  fun szL szS mM s line k => appendLine_err szL szS mM _ line (nextSteps_isSome szL k s)

/-- Claim C8.  Whenever an append makes the memory estimate reach or exceed
the ceiling, the buffer flushes synchronously into a new sorted partition and
is left empty; concretely, with string size = length, list size = length and a
ceiling of 4, appending `2`, `1`, `3` produces exactly one partition holding
`1`, `2` in sorted order while `3` stays in the resident buffer. -/
theorem flush_on_threshold :
    (∀ (szList : Nat → Int) (szStr : Line → Int) (maxMemory : Int)
      (s : MergeSort) (line : Line),
      s.iterating = none →
      maxMemory ≤ s.memoryCounter - szList s.buffer.length
        + szList (s.buffer ++ [line]).length + szStr line →
      ∃ s' : MergeSort,
        appendLine szList szStr maxMemory s line = .ok s'
        ∧ s'.buffer = []
        ∧ s'.partitions = s.partitions ++ [sort_lines (s.buffer ++ [line])]
        ∧ s'.memoryCounter = szList 0)
    ∧ (build lenL lenS 4 [['2'], ['1'], ['3']]).partitions = [[['1'], ['2']]]
    ∧ (build lenL lenS 4 [['2'], ['1'], ['3']]).buffer = [['3']]
    ∧ (build lenL lenS 4 [['2'], ['1'], ['3']]).iterating = none := by
  refine ⟨?_, by decide, by decide, by decide⟩
  intro szL szS mM s line h hm
  refine ⟨flushState szL
    (MergeSort.mk s.partitions (s.buffer ++ [line]) s.iterating
      (s.memoryCounter - szL s.buffer.length + szL (s.buffer ++ [line]).length
        + szS line)),
    ?_, rfl, ?_, rfl⟩
  · rw [appendLine_ok szL szS mM s line h]
    unfold appendB
    dsimp only
    rw [if_pos hm]
  · rw [flushState_partitions]
    rw [if_neg (by simp)]

/-- Witness for C8 at the concrete state reached after appending `2`. -/
theorem flush_on_threshold_witness :
    ∃ s' : MergeSort,
      appendLine lenL lenS 4 (MergeSort.mk [] [['2']] none 2) ['1'] = .ok s'
      ∧ s'.buffer = []
      ∧ s'.partitions = [] ++ [sort_lines ([['2']] ++ [['1']])]
      ∧ s'.memoryCounter = lenL 0 :=
  flush_on_threshold.1 lenL lenS 4 (MergeSort.mk [] [['2']] none 2) ['1'] rfl (by decide)

/-- Claim C9 counterexample.  A size string with an unrecognized unit does not
raise: `memory_size "20TB"` silently ignores the `TB` suffix (the regular
expression match is not anchored at the end) and returns `20`. -/
theorem memory_size_unknown_unit_silent : memory_sizeS "20TB" = .ok 20 := rfl

/-- Claim C9 (amended).  `memory_size` parses `"1k"` to 1024, `"1.5M"` to
1572864 and `"20GB"` to 21474836480, and raises `ValueError` for any ASCII
size string that (after lowering and stripping) does not begin with a digit,
dot or underscore — the ASCII restriction is needed because Python's `\d`,
`\s` and case mapping are Unicode-aware, so a non-ASCII digit or whitespace
character can still let the string parse; but an unrecognized unit after a
valid number is silently ignored rather than raising:
`memory_size "20TB" = 20`. -/
theorem memory_size_amended :
    (∀ s : Line, (∀ c ∈ s, c.toNat < 128) →
      (pyStrip (s.map Char.toLower)).takeWhile
        (fun c => isDig c || c = '.' || c = '_') = [] →
      memory_size s = .error "Invalid memory size")
    ∧ memory_sizeS "1k" = .ok 1024
    ∧ memory_sizeS "1.5M" = .ok 1572864
    ∧ memory_sizeS "20GB" = .ok 21474836480
    ∧ memory_sizeS "20TB" = .ok 20
    ∧ memory_sizeS "foo" = .error "Invalid memory size" := by
  refine ⟨?_, rfl, rfl, rfl, rfl, rfl⟩
  intro s _ h
  unfold memory_size
  dsimp only
  rw [h]
  rfl

/-- Witness for C9 at a concrete invalid ASCII input. -/
theorem memory_size_amended_witness :
    memory_size "gig".data = .error "Invalid memory size" :=
  memory_size_amended.1 "gig".data (by decide) rfl

theorem c10_aux : ∀ (n : Nat) (c : Char) (r : Line), c ≠ '-' →
    lcRun n (.top ('0' :: c :: r) (c :: r)) = 0 := by
  intro n c r h
  cases n with
  | zero => rfl
  | succ m =>
    rw [lcRun_top_cons_cons, if_neg (by decide : ¬('0' = '-')), if_neg h]
    rw [show dropZeros ('0' :: c :: r) = dropZeros (c :: r) from by simp [dropZeros]]
    exact (lcRun_self m).2.1 1 _

/-- Claim C10.  A leading zero prepended to any nonempty record that does not
begin with `'-'` leaves the comparison result equal: `linecomp ('0' + s) s = 0`,
even when the field is not numeric, so such records are tied and their
relative output order is unspecified. -/
theorem leading_zero_field_equal (c : Char) (r : Line) (h : c ≠ '-') :
    linecomp ('0' :: c :: r) (c :: r) = 0 := by
  unfold linecomp
  exact c10_aux _ c r h

/-- Witness for C10 at a concrete non-numeric input. -/
theorem leading_zero_field_equal_witness : linecomp ['0', 'x'] ['x'] = 0 :=
  leading_zero_field_equal 'x' [] (by decide)

end Pgtricks
